import Mathlib

/-!
Shallow embedding of `generate_asp_ics.py` (NYC alternate-side-parking
suspension calendar generator).

Strings are modelled as `List Char` (one element per Unicode code point,
matching Python's `str`).  The source file on disk stores its non-ASCII
literals as mojibake code points; those exact code points are reproduced
here with `Char.ofNat`.  Machine-independent library calls of the Python
runtime (`hashlib.sha1`, `str.strip`, `str.lower`, `in` on strings,
`sorted`, `date + timedelta(days=1)`) are embedded by executable Lean
functions implementing the same mathematical functions.
-/

namespace ASP

abbrev Str := List Char

/-- The ASCII whitespace characters stripped by Python's `str.strip()`. -/
def pyIsSpace (c : Char) : Bool :=
  c = ' ' || c = '\t' || c = '\n' || c = '\r' || c = Char.ofNat 11 || c = Char.ofNat 12

/-- Python `str.lstrip()`. -/
def pyLstrip (s : Str) : Str := s.dropWhile pyIsSpace

/-- Python `str.rstrip()`. -/
def pyRstrip (s : Str) : Str := (s.reverse.dropWhile pyIsSpace).reverse

/-- Python `str.strip()`. -/
def pyStrip (s : Str) : Str := pyLstrip (pyRstrip s)

/-- Python `str.lower()` (ASCII range, which covers every keyword of the table). -/
def lowerStr (s : Str) : Str := s.map Char.toLower

/-- Python substring test `needle in hay`. -/
def strContains (hay needle : Str) : Bool :=
  if needle.isPrefixOf hay then true
  else
    match hay with
    | [] => false
    | _ :: t => strContains t needle

/-- A Python `datetime.date`: year, month, day, no time component. -/
structure Date where
  year : Nat
  month : Nat
  day : Nat
deriving DecidableEq

/-- Python's `date` comparison: lexicographic on (year, month, day). -/
def dle (a b : Date) : Prop :=
  a.year < b.year ∨ (a.year = b.year ∧
    (a.month < b.month ∨ (a.month = b.month ∧ a.day ≤ b.day)))

instance : DecidableRel dle := fun a b => by unfold dle; infer_instance

instance : IsTotal Date dle := by
  constructor; intro a b; unfold dle; omega

instance : IsTrans Date dle := by
  constructor; intro a b c; unfold dle; omega

instance : IsAntisymm Date dle := by
  constructor
  intro a b h1 h2
  obtain ⟨ay, am, ad⟩ := a
  obtain ⟨by_, bm, bd⟩ := b
  unfold dle at h1 h2
  dsimp only at h1 h2
  simp only [Date.mk.injEq]
  omega

-- ----------------------------
-- Fact merging (`main`, lines 260-272, and `load_scheduled_suspensions`)
-- ----------------------------

/-- One step of the duplicate-avoiding append used in `main`'s live merge
(`if r not in existing: existing.append(r)`) and in the emoji dedup loop. -/
def addNew (acc : List Str) (r : Str) : List Str :=
  if r ∈ acc then acc else acc ++ [r]

/-- The reason-merging loop of `main` (lines 266-269): start from the
scheduled reasons and append each live reason not already present. -/
def mergeReasons (existing reasons : List Str) : List Str :=
  reasons.foldl addNew existing

/-- A Python dict `Dict[dt.date, List[str]]`, as an insertion-ordered
association list (keys unique, as for any dict). -/
abbrev FactMap := List (Date × List Str)

/-- Dict lookup `m[d]` / `m.get(d)`. -/
def lookupD : FactMap → Date → Option (List Str)
  | [], _ => none
  | (k, v) :: rest, d => if k = d then some v else lookupD rest d

/-- Dict key test `d in m`. -/
def hasKeyD (m : FactMap) (d : Date) : Bool :=
  m.any fun p => decide (p.1 = d)

/-- Dict assignment `m[d] = v`: replace in place if the key exists
(keeping its position), otherwise append at the end. -/
def dictSet (m : FactMap) (d : Date) (v : List Str) : FactMap :=
  if hasKeyD m d then m.map (fun p => if p.1 = d then (d, v) else p)
  else m ++ [(d, v)]

/-- Lines 260-272 of `main`: `combined = dict(scheduled)` then, when a live
observation `(d, reasons, _snippet)` is present, merge its reasons into the
entry for `d` (appending only reasons not already present) or create the
entry. -/
def mergeLive (scheduled : FactMap) : Option (Date × List Str × Str) → FactMap
  | none => scheduled
  | some (d, reasons, _snippet) =>
    match lookupD scheduled d with
    | some existing => dictSet scheduled d (mergeReasons existing reasons)
    | none => dictSet scheduled d reasons

/-- The per-record accumulation loop of `load_scheduled_suspensions`
(lines 124-134), after date parsing and list coercion:
`susp[d] = existing + [h for h in holidays if h not in existing]`. -/
def loadRecords (susp : FactMap) : List (Date × List Str) → FactMap
  | [] => susp
  | (d, holidays) :: rest =>
    let existing := (lookupD susp d).getD []
    let merged := existing ++ holidays.filter (fun h => !decide (h ∈ existing))
    loadRecords (dictSet susp d merged) rest

-- ----------------------------
-- Emoji / title helpers
-- ----------------------------

/-- Shorthand for writing the source file's mojibake code points. -/
def mc (n : Nat) : Char := Char.ofNat n

/-- The `HOLIDAY_EMOJI` table, with each value's exact code points as they
appear in the source file. -/
def HOLIDAY_EMOJI : List (Str × Str) := [
  ("New Year".toList, [mc 0xf8ff, mc 0xfc, mc 0xe9, mc 0xe2]),
  ("Martin Luther King".toList, [mc 0x201a, mc 0xfa, mc 0xe4, mc 0xf8ff, mc 0xfc, mc 0xe8, mc 0x3a9]),
  ("Presidents".toList, [mc 0xf8ff, mc 0xfc, mc 0xe1, mc 0x222b, mc 0xf8ff, mc 0xfc, mc 0xe1, mc 0x220f]),
  ("Lincoln".toList, [mc 0xf8ff, mc 0xfc, mc 0xe9, mc 0xa9]),
  ("Washington".toList, [mc 0xf8ff, mc 0xfc, mc 0xe1, mc 0x222b, mc 0xf8ff, mc 0xfc, mc 0xe1, mc 0x220f]),
  ("Good Friday".toList, [mc 0x201a, mc 0xfa, mc 0xf9, mc 0xd4, mc 0x220f, mc 0xe8]),
  ("Easter".toList, [mc 0xf8ff, mc 0xfc, mc 0xea, mc 0xa3]),
  ("Passover".toList, [mc 0xf8ff, mc 0xfc, mc 0xef, mc 0xe9]),
  ("Memorial Day".toList, [mc 0xf8ff, mc 0xfc, mc 0xe9, mc 0xf1, mc 0xd4, mc 0x220f, mc 0xe8]),
  ("Juneteenth".toList, [mc 0x201a, mc 0xfa, mc 0xe4, mc 0xf8ff, mc 0xfc, mc 0xe8, mc 0xf8]),
  ("Independence Day".toList, [mc 0xf8ff, mc 0xfc, mc 0xe9, mc 0xdc]),
  ("Labor Day".toList, [mc 0xf8ff, mc 0xfc, mc 0xf5, mc 0x2020, mc 0xd4, mc 0x220f, mc 0xe8]),
  ("Rosh Hashanah".toList, [mc 0xf8ff, mc 0xfc, mc 0xe7, mc 0xd8]),
  ("Yom Kippur".toList, [mc 0xf8ff, mc 0xfc, mc 0xf4, mc 0xe8]),
  ("Sukkoth".toList, [mc 0xf8ff, mc 0xfc, mc 0xe5, mc 0xf8]),
  ("Thanksgiving".toList, [mc 0xf8ff, mc 0xfc, mc 0xb6, mc 0xc9]),
  ("Christmas".toList, [mc 0xf8ff, mc 0xfc, mc 0xe9, mc 0xd1]),
  ("Columbus".toList, [mc 0xf8ff, mc 0xfc, mc 0xdf, mc 0x2260]),
  ("Veterans".toList, [mc 0xf8ff, mc 0xfc, mc 0xe9, mc 0xf3, mc 0xd4, mc 0x220f, mc 0xe8]),
  ("Election Day".toList, [mc 0xf8ff, mc 0xfc, mc 0xf3, mc 0x2265, mc 0xd4, mc 0x220f, mc 0xe8]),
  ("Lunar New Year".toList, [mc 0xf8ff, mc 0xfc, mc 0xdf, mc 0xdf]),
  ("Ramadan".toList, [mc 0xf8ff, mc 0xfc, mc 0xe5, mc 0xf4]),
  ("Eid".toList, [mc 0xf8ff, mc 0xfc, mc 0xe5, mc 0xf4]),
  ("Ash Wednesday".toList, [mc 0x201a, mc 0xfa, mc 0xf9, mc 0xd4, mc 0x220f, mc 0xe8]),
  ("Purim".toList, [mc 0xf8ff, mc 0xfc, mc 0xe9, mc 0x2260]),
  ("All Saints".toList, [mc 0x201a, mc 0xf5, mc 0x2122]),
  ("Halloween".toList, [mc 0xf8ff, mc 0xfc, mc 0xe9, mc 0xc9])]

/-- `SUSPENDED_PREFIX`, with the source file's exact code points followed by
the ASCII text " Suspended". -/
def SUSPENDED_PREFIX_STR : Str :=
  [mc 0xf8ff, mc 0xfc, mc 0xf6, mc 0xb4, mc 0xf8ff, mc 0xfc, mc 0xd6, mc 0xf8,
   mc 0xd4, mc 0x220f, mc 0xe8] ++ " Suspended".toList

/-- The separator written in `build_summary` between the prefix and the
joined reasons (a space, the source file's em-dash code points, a space). -/
def SEP_DASH : Str := [' ', mc 0x201a, mc 0xc4, mc 0xee, ' ']

/-- The `" / "` separator of `build_summary`. -/
def sepSlash : Str := [' ', '/', ' ']

/-- The collection loop of `emojis_for_holidays` (lines 84-87): for each
holiday, append the emoji of every table entry whose lowercased key occurs
in the lowercased holiday string. -/
def collectEmojis (holidays : List Str) : List Str :=
  holidays.flatMap fun h =>
    (HOLIDAY_EMOJI.filter fun ke => strContains (lowerStr h) (lowerStr ke.1)).map (·.2)

/-- The de-dup loop of `emojis_for_holidays` (lines 89-94): keep the first
occurrence of each emoji, preserving order. -/
def dedupKeepOrder (l : List Str) : List Str :=
  l.foldl addNew []

/-- `emojis_for_holidays`: collected matches, de-duplicated, concatenated. -/
def emojis_for_holidays (holidays : List Str) : Str :=
  (dedupKeepOrder (collectEmojis holidays)).flatten

/-- `build_summary` (lines 97-102). -/
def build_summary (holidays : List Str) : Str :=
  if holidays = [] then SUSPENDED_PREFIX_STR
  else
    pyStrip ((SUSPENDED_PREFIX_STR ++ SEP_DASH ++ List.intercalate sepSlash holidays)
      ++ pyRstrip (' ' :: emojis_for_holidays holidays))

-- ----------------------------
-- ICS escaping (`ics_escape`, lines 201-207)
-- ----------------------------

/-- Python `str.replace(pat, rep)` for a single-character pattern. -/
def pyReplace1 (pat : Char) (rep : Str) (s : Str) : Str :=
  s.flatMap fun c => if c = pat then rep else [c]

/-- `ics_escape`: the four chained `.replace` calls in source order
(backslash, then semicolon, then comma, then newline). -/
def ics_escape (s : Str) : Str :=
  pyReplace1 '\n' ['\\', 'n']
    (pyReplace1 ',' ['\\', ',']
      (pyReplace1 ';' ['\\', ';']
        (pyReplace1 '\\' ['\\', '\\'] s)))

/-- The per-character view of the escape map. -/
def escChar (c : Char) : Str :=
  if c = '\\' then ['\\', '\\']
  else if c = ';' then ['\\', ';']
  else if c = ',' then ['\\', ',']
  else if c = '\n' then ['\\', 'n']
  else [c]

/-- Standard ICS unescaping: a backslash followed by `n` denotes a newline,
a backslash followed by any other character denotes that character. -/
def ics_unescape : Str → Str
  | [] => []
  | [c] => [c]
  | c1 :: c2 :: rest =>
    if c1 = '\\' then (if c2 = 'n' then '\n' else c2) :: ics_unescape rest
    else c1 :: ics_unescape (c2 :: rest)

-- ----------------------------
-- SHA-1 (the `hashlib.sha1(...).hexdigest()` call of `uid_for`)
-- ----------------------------

/-- UTF-8 encoding of one code point (`str.encode("utf-8")`). -/
def utf8Bytes (c : Char) : List Nat :=
  let n := c.toNat
  if n < 128 then [n]
  else if n < 2048 then [192 + n / 64, 128 + n % 64]
  else if n < 65536 then [224 + n / 4096, 128 + n / 64 % 64, 128 + n % 64]
  else [240 + n / 262144, 128 + n / 4096 % 64, 128 + n / 64 % 64, 128 + n % 64]

/-- UTF-8 encoding of a string. -/
def strUtf8 (s : Str) : List Nat := s.flatMap utf8Bytes

/-- Truncation to a 32-bit word. -/
def w32 (n : Nat) : Nat := n % 4294967296

/-- 32-bit left rotation. -/
def rotl (s n : Nat) : Nat := w32 ((n <<< s) ||| (n >>> (32 - s)))

/-- Big-endian 32-bit words from bytes. -/
def bytesToWords : List Nat → List Nat
  | b0 :: b1 :: b2 :: b3 :: rest =>
    (((b0 * 256 + b1) * 256 + b2) * 256 + b3) :: bytesToWords rest
  | _ => []

/-- SHA-1 message-schedule extension: append `k` further words. -/
def sha1Schedule (ws : List Nat) : Nat → List Nat
  | 0 => ws
  | k + 1 =>
    let prev := sha1Schedule ws k
    let i := prev.length
    prev ++ [rotl 1 ((prev.getD (i - 3) 0) ^^^ (prev.getD (i - 8) 0) ^^^
      (prev.getD (i - 14) 0) ^^^ (prev.getD (i - 16) 0))]

/-- SHA-1 round function. -/
def sha1F (t b c d : Nat) : Nat :=
  if t < 20 then (b &&& c) ||| ((b ^^^ 4294967295) &&& d)
  else if t < 40 then b ^^^ c ^^^ d
  else if t < 60 then (b &&& c) ||| (b &&& d) ||| (c &&& d)
  else b ^^^ c ^^^ d

/-- SHA-1 round constants. -/
def sha1K (t : Nat) : Nat :=
  if t < 20 then 1518500249
  else if t < 40 then 1859775393
  else if t < 60 then 2400959708
  else 3395469782

abbrev H5 := Nat × Nat × Nat × Nat × Nat

/-- One SHA-1 round: state `(a,b,c,d,e)`, input `(t, w_t)`. -/
def sha1Step (st : H5) (tw : Nat × Nat) : H5 :=
  (w32 (rotl 5 st.1 + sha1F tw.1 st.2.1 st.2.2.1 st.2.2.2.1 + st.2.2.2.2 +
     sha1K tw.1 + tw.2),
   st.1, rotl 30 st.2.1, st.2.2.1, st.2.2.2.1)

/-- Process one 64-byte chunk. -/
def sha1Chunk (h : H5) (chunk : List Nat) : H5 :=
  let sched := sha1Schedule (bytesToWords chunk) 64
  let s := sched.enum.foldl sha1Step h
  (w32 (h.1 + s.1), w32 (h.2.1 + s.2.1), w32 (h.2.2.1 + s.2.2.1),
   w32 (h.2.2.2.1 + s.2.2.2.1), w32 (h.2.2.2.2 + s.2.2.2.2))

/-- Big-endian 8-byte encoding of the bit length. -/
def be8 (n : Nat) : List Nat :=
  [n / 72057594037927936 % 256, n / 281474976710656 % 256,
   n / 1099511627776 % 256, n / 4294967296 % 256,
   n / 16777216 % 256, n / 65536 % 256, n / 256 % 256, n % 256]

/-- SHA-1 padding: a 0x80 byte, zeros to 56 mod 64, the 64-bit bit length. -/
def sha1Pad (msg : List Nat) : List Nat :=
  msg ++ [128] ++ List.replicate ((119 - msg.length % 64) % 64) 0 ++
    be8 (8 * msg.length)

/-- Split a byte list into 64-byte chunks. -/
def toChunks : List Nat → List (List Nat)
  | [] => []
  | a :: rest => ((a :: rest).take 64) :: toChunks ((a :: rest).drop 64)
termination_by l => l.length
decreasing_by simp [List.length_drop]; omega

def sha1Init : H5 := (1732584193, 4023233417, 2562383102, 271733878, 3285377520)

/-- The SHA-1 digest as five 32-bit words. -/
def sha1Digest (msg : List Nat) : H5 :=
  (toChunks (sha1Pad msg)).foldl sha1Chunk sha1Init

/-- Lower-case hex digit. -/
def hexDigit (n : Nat) : Char :=
  if n < 10 then Char.ofNat (48 + n) else Char.ofNat (87 + n)

/-- A 32-bit word as 8 hex characters, big-endian. -/
def toHex8 (w : Nat) : Str :=
  (List.range 8).map fun i => hexDigit (w / 2 ^ (4 * (7 - i)) % 16)

/-- `hashlib.sha1(bytes).hexdigest()`. -/
def sha1Hex (msg : List Nat) : Str :=
  let d := sha1Digest msg
  toHex8 d.1 ++ toHex8 d.2.1 ++ toHex8 d.2.2.1 ++ toHex8 d.2.2.2.1 ++
    toHex8 d.2.2.2.2

-- ----------------------------
-- Dates and events
-- ----------------------------

/-- One decimal digit character. -/
def digitChar (n : Nat) : Char := Char.ofNat (48 + n % 10)

/-- Four-digit zero-padded decimal (`%Y` / ISO year for years up to 9999). -/
def pad4 (n : Nat) : Str :=
  [digitChar (n / 1000), digitChar (n / 100), digitChar (n / 10), digitChar n]

/-- Two-digit zero-padded decimal (`%m`, `%d`). -/
def pad2 (n : Nat) : Str := [digitChar (n / 10), digitChar n]

/-- `date.isoformat()`: `YYYY-MM-DD`. -/
def isoformat (d : Date) : Str :=
  pad4 d.year ++ ['-'] ++ pad2 d.month ++ ['-'] ++ pad2 d.day

/-- `date.strftime("%Y%m%d")`. -/
def ymd8 (d : Date) : Str := pad4 d.year ++ pad2 d.month ++ pad2 d.day

/-- Python `calendar` leap-year rule used by `datetime.date`. -/
def isLeap (y : Nat) : Prop := y % 4 = 0 ∧ (y % 100 ≠ 0 ∨ y % 400 = 0)

instance (y : Nat) : Decidable (isLeap y) := by unfold isLeap; infer_instance

/-- Days in a month of the Gregorian calendar. -/
def daysInMonth (y m : Nat) : Nat :=
  if m = 2 then (if isLeap y then 29 else 28)
  else if m = 4 ∨ m = 6 ∨ m = 9 ∨ m = 11 then 30
  else 31

/-- `date_ + dt.timedelta(days=1)`: the next calendar day. -/
def nextDay (d : Date) : Date :=
  if d.day < daysInMonth d.year d.month then ⟨d.year, d.month, d.day + 1⟩
  else if d.month < 12 then ⟨d.year, d.month + 1, 1⟩
  else ⟨d.year + 1, 1, 1⟩

/-- Leap years among `1..n` (proleptic Gregorian). -/
def leapsBefore (n : Nat) : Nat := n / 4 - n / 100 + n / 400

/-- Days before January 1 of year `y`, counting from day number 1 =
0001-01-01 (Python's `date.toordinal`). -/
def daysBeforeYear (y : Nat) : Nat := 365 * (y - 1) + leapsBefore (y - 1)

/-- Days of year `y` strictly before month `m`. -/
def daysBeforeMonth (y : Nat) : Nat → Nat
  | 0 => 0
  | 1 => 0
  | m + 2 => daysBeforeMonth y (m + 1) + daysInMonth y (m + 1)

/-- Python's `date.toordinal()`: day number with 0001-01-01 = 1. -/
def toOrdinal (d : Date) : Nat :=
  daysBeforeYear d.year + daysBeforeMonth d.year d.month + d.day

/-- A well-formed calendar date. -/
def isValidDate (d : Date) : Prop :=
  1 ≤ d.year ∧ 1 ≤ d.month ∧ d.month ≤ 12 ∧ 1 ≤ d.day ∧
    d.day ≤ daysInMonth d.year d.month

instance (d : Date) : Decidable (isValidDate d) := by
  unfold isValidDate; infer_instance

/-- `uid_for` (lines 209-211). -/
def uid_for (date_ : Date) (summary : Str) : Str :=
  let h := (sha1Hex (strUtf8 (isoformat date_ ++ ['|'] ++ summary))).take 16
  "asp-".toList ++ isoformat date_ ++ ['-'] ++ h ++ "@aspcalendar".toList

/-- `build_all_day_event` (lines 213-227).  The `DTSTAMP` value (wall-clock
time at generation) is passed in as `nowUtc`. -/
def build_all_day_event (date_ : Date) (summary description nowUtc : Str) :
    List Str :=
  let dtend := nextDay date_
  ["BEGIN:VEVENT".toList,
   "UID:".toList ++ uid_for date_ summary,
   "DTSTAMP:".toList ++ nowUtc,
   "DTSTART;VALUE=DATE:".toList ++ ymd8 date_,
   "DTEND;VALUE=DATE:".toList ++ ymd8 dtend,
   "SUMMARY:".toList ++ ics_escape summary,
   "DESCRIPTION:".toList ++ ics_escape description,
   "TRANSP:TRANSPARENT".toList,
   "END:VEVENT".toList]

/-- `sorted(combined.keys())`. -/
def sortDates (ds : List Date) : List Date := List.insertionSort dle ds

/-- The event-building loop of `main` (lines 276-286): one all-day event
per date of the combined map, in sorted date order.  The description and
timestamp (which embed wall-clock values) are passed in. -/
def buildEvents (combined : FactMap) (description nowUtc : Str) :
    List (List Str) :=
  (sortDates (combined.map Prod.fst)).map fun d =>
    build_all_day_event d (build_summary ((lookupD combined d).getD []))
      description nowUtc

/-- `CAL_NAME`, with the source file's exact code points. -/
def CAL_NAME_STR : Str :=
  "NYC Alternate Side Parking ".toList ++ [mc 0x201a, mc 0xc4, mc 0xee] ++
    " Suspensions (Live + Scheduled)".toList

/-- `write_calendar` (lines 229-246), as the list of lines of the emitted
document. -/
def write_calendar (events : List (List Str)) : List Str :=
  (["BEGIN:VCALENDAR".toList,
    "VERSION:2.0".toList,
    "PRODID:-//NYC ASP Suspensions//EN".toList,
    "CALSCALE:GREGORIAN".toList,
    "X-WR-CALNAME:".toList ++ ics_escape CAL_NAME_STR,
    "X-WR-TIMEZONE:America/New_York".toList] ++ events.flatten) ++
    ["END:VCALENDAR".toList]

-- ----------------------------
-- Live detection (`fetch_live_today_suspension`, lines 151-195)
-- ----------------------------

/-- The characters of the boundary class `[<>{}\[\]\n\r]` at which the
extracted reason is cut (written with code points to avoid brace literals). -/
def tagSplitChars : List Char :=
  ['<', '>', mc 0x7b, mc 0x7d, '[', ']', '\n', '\r']

/-- `re.split(r"[<>{}\[\]\n\r]", reason)[0]`: the part before the first
boundary character. -/
def splitFirstPart (s : Str) : Str :=
  s.takeWhile fun c => !(tagSplitChars.contains c)

/-- The decision logic of `fetch_live_today_suspension` (lines 168-195)
after the network fetch: `suspFound` is whether a suspension keyword
matched, `matched` is the captured group of the reason regex (if any),
`today` and `snippet` are the scraped date and text.  Returns `none` when
no suspension is detected, otherwise the observation with a non-empty
reason list (falling back to "NYC 311 update"). -/
def fetch_live_core (suspFound : Bool) (today : Date) (snippet : Str)
    (matched : Option Str) : Option (Date × List Str × Str) :=
  if !suspFound then none
  else
    let reasons : List Str :=
      match matched with
      | some g =>
        let reason := pyStrip g
        let reason := pyStrip (splitFirstPart reason)
        if 3 ≤ reason.length ∧ reason.length ≤ 80 then [reason] else []
      | none => []
    let reasons := if reasons = [] then ["NYC 311 update".toList] else reasons
    some (today, reasons, snippet)

-- ----------------------------
-- Helper lemmas: reason merging
-- ----------------------------

theorem mem_addNew {E : List Str} {r x : Str} :
    x ∈ addNew E r ↔ x ∈ E ∨ x = r := by
  unfold addNew
  split
  · next h => simp only [iff_self_or]; rintro rfl; exact h
  · simp

theorem nodup_addNew {E : List Str} {r : Str} (h : E.Nodup) :
    (addNew E r).Nodup := by
  unfold addNew
  split
  · exact h
  · next hr => simp [List.nodup_append, h, hr]

theorem mem_mergeReasons {l : List Str} :
    ∀ {E : List Str} {x : Str}, x ∈ mergeReasons E l ↔ x ∈ E ∨ x ∈ l := by
  induction l with
  | nil => simp [mergeReasons]
  | cons r rs ih =>
    intro E x
    rw [show mergeReasons E (r :: rs) = mergeReasons (addNew E r) rs from rfl, ih,
      mem_addNew]
    simp only [List.mem_cons]
    tauto

theorem nodup_mergeReasons {l : List Str} :
    ∀ {E : List Str}, E.Nodup → (mergeReasons E l).Nodup := by
  induction l with
  | nil => intro E h; exact h
  | cons r rs ih =>
    intro E h
    exact ih (nodup_addNew h)

theorem mergeReasons_of_subset {l E : List Str} (h : ∀ r ∈ l, r ∈ E) :
    mergeReasons E l = E := by
  induction l with
  | nil => rfl
  | cons r rs ih =>
    have hr : r ∈ E := h r (by simp)
    show mergeReasons (addNew E r) rs = E
    rw [show addNew E r = E from by simp [addNew, hr]]
    exact ih fun x hx => h x (by simp [hx])

theorem mergeReasons_decomp (l : List Str) :
    ∀ E : List Str, ∃ t : List Str, mergeReasons E l = E ++ t ∧ t.Nodup ∧
      (∀ r ∈ t, r ∈ l ∧ r ∉ E) ∧ (∀ r ∈ l, r ∈ E ++ t) := by
  induction l with
  | nil => intro E; exact ⟨[], by simp [mergeReasons]⟩
  | cons r rs ih =>
    intro E
    by_cases hr : r ∈ E
    · obtain ⟨t, ht, hnd, hmem, hcov⟩ := ih E
      refine ⟨t, ?_, hnd, ?_, ?_⟩
      · rw [show mergeReasons E (r :: rs) = mergeReasons (addNew E r) rs from rfl,
          show addNew E r = E from by simp [addNew, hr]]
        exact ht
      · exact fun x hx => ⟨List.mem_cons_of_mem _ (hmem x hx).1, (hmem x hx).2⟩
      · intro x hx
        rcases List.mem_cons.mp hx with rfl | hx
        · simp [hr]
        · exact hcov x hx
    · obtain ⟨t, ht, hnd, hmem, hcov⟩ := ih (E ++ [r])
      refine ⟨r :: t, ?_, ?_, ?_, ?_⟩
      · rw [show mergeReasons E (r :: rs) = mergeReasons (addNew E r) rs from rfl,
          show addNew E r = E ++ [r] from by simp [addNew, hr], ht,
          List.append_assoc]
        rfl
      · refine List.nodup_cons.mpr ⟨?_, hnd⟩
        intro hrt
        exact (hmem r hrt).2 (by simp)
      · intro x hx
        rcases List.mem_cons.mp hx with rfl | hx
        · exact ⟨by simp, hr⟩
        · refine ⟨by simp [(hmem x hx).1], ?_⟩
          intro hxE
          exact (hmem x hx).2 (by simp [hxE])
      · intro x hx
        rcases List.mem_cons.mp hx with rfl | hx
        · simp
        · have := hcov x hx
          simp only [List.append_assoc, List.singleton_append] at this
          exact this

-- ----------------------------
-- Helper lemmas: dict operations
-- ----------------------------

/-- The keys of a Python dict are pairwise distinct. -/
def keysNodup (m : FactMap) : Prop := (m.map Prod.fst).Nodup

theorem hasKeyD_iff {m : FactMap} {d : Date} :
    hasKeyD m d = true ↔ d ∈ m.map Prod.fst := by
  simp only [hasKeyD, List.any_eq_true, decide_eq_true_eq, List.mem_map]

theorem lookupD_isSome : ∀ (m : FactMap) (d : Date),
    (lookupD m d).isSome = hasKeyD m d
  | [], _ => rfl
  | (k, v) :: rest, d => by
    by_cases h : k = d
    · subst h
      simp [lookupD, hasKeyD]
    · have ih := lookupD_isSome rest d
      simp only [lookupD, if_neg h, hasKeyD, List.any_cons]
      rw [show (decide ((k, v).1 = d) : Bool) = false from by simp [h],
        Bool.false_or]
      exact ih

theorem map_fst_update (m : FactMap) (d : Date) (v : List Str) :
    (m.map (fun p => if p.1 = d then (d, v) else p)).map Prod.fst =
      m.map Prod.fst := by
  induction m with
  | nil => rfl
  | cons p rest ih =>
    simp only [List.map_cons, ih, List.cons.injEq, and_true]
    by_cases hp : p.1 = d
    · simp [hp]
    · simp [hp]

theorem map_fst_dictSet (m : FactMap) (d : Date) (v : List Str) :
    (dictSet m d v).map Prod.fst =
      if hasKeyD m d then m.map Prod.fst else m.map Prod.fst ++ [d] := by
  unfold dictSet
  by_cases h : hasKeyD m d
  · rw [if_pos h, if_pos h, map_fst_update]
  · rw [if_neg h, if_neg h, List.map_append]
    rfl

theorem hasKeyD_dictSet {m : FactMap} {k : Date} {v : List Str} {x : Date} :
    hasKeyD (dictSet m k v) x = true ↔ hasKeyD m x = true ∨ x = k := by
  rw [hasKeyD_iff, map_fst_dictSet]
  by_cases h : hasKeyD m k
  · rw [if_pos h, ← hasKeyD_iff]
    constructor
    · exact Or.inl
    · rintro (hx | rfl)
      · exact hx
      · exact h
  · rw [if_neg h]
    simp only [List.mem_append, List.mem_singleton, ← hasKeyD_iff]

theorem keysNodup_dictSet {m : FactMap} {d : Date} {v : List Str}
    (h : keysNodup m) : keysNodup (dictSet m d v) := by
  unfold keysNodup at h ⊢
  rw [map_fst_dictSet]
  by_cases hd : hasKeyD m d
  · rw [if_pos hd]; exact h
  · rw [if_neg hd]
    have hnm : d ∉ m.map Prod.fst := fun hc => hd (hasKeyD_iff.mpr hc)
    simp [List.nodup_append, h, hnm]

theorem map_noKey_id {d : Date} {v : List Str} :
    ∀ {m : FactMap}, d ∉ m.map Prod.fst →
      m.map (fun p => if p.1 = d then (d, v) else p) = m := by
  intro m
  induction m with
  | nil => intro _; rfl
  | cons q rest ih =>
    intro hd
    simp only [List.map_cons, List.mem_cons] at hd
    push_neg at hd
    simp only [List.map_cons, List.cons.injEq]
    exact ⟨by rw [if_neg fun he => hd.1 he.symm], ih hd.2⟩

theorem map_update_self {d : Date} {v : List Str} :
    ∀ {m : FactMap}, keysNodup m → lookupD m d = some v →
      m.map (fun p => if p.1 = d then (d, v) else p) = m := by
  intro m
  induction m with
  | nil => intro _ h; simp [lookupD] at h
  | cons p rest ih =>
    intro hnd hlk
    obtain ⟨k, w⟩ := p
    unfold keysNodup at hnd
    rw [List.map_cons, List.nodup_cons] at hnd
    by_cases h : k = d
    · subst h
      have hw : w = v := by simpa [lookupD] using hlk
      subst hw
      simp only [List.map_cons, List.cons.injEq]
      exact ⟨by simp, map_noKey_id hnd.1⟩
    · simp only [lookupD, if_neg h] at hlk
      simp only [List.map_cons, List.cons.injEq]
      exact ⟨by rw [if_neg h], ih hnd.2 hlk⟩

theorem dictSet_lookup_self {m : FactMap} {d : Date} {v : List Str}
    (hnd : keysNodup m) (hlk : lookupD m d = some v) : dictSet m d v = m := by
  have hk : hasKeyD m d = true := by
    rw [← lookupD_isSome, hlk]
    rfl
  unfold dictSet
  rw [if_pos hk]
  exact map_update_self hnd hlk

theorem keysNodup_mergeLive {S : FactMap} {L : Option (Date × List Str × Str)}
    (h : keysNodup S) : keysNodup (mergeLive S L) := by
  cases L with
  | none => exact h
  | some x =>
    obtain ⟨d, rs, sn⟩ := x
    simp only [mergeLive]
    cases lookupD S d with
    | none => exact keysNodup_dictSet h
    | some ex => exact keysNodup_dictSet h

theorem hasKeyD_mergeLive (S : FactMap) (L : Option (Date × List Str × Str))
    (d : Date) :
    hasKeyD (mergeLive S L) d = true ↔
      hasKeyD S d = true ∨ ∃ rs sn, L = some (d, rs, sn) := by
  cases L with
  | none => simp [mergeLive]
  | some x =>
    obtain ⟨d', rs, sn⟩ := x
    have hr : (∃ rs' sn', (some (d', rs, sn) : Option (Date × List Str × Str)) =
        some (d, rs', sn')) ↔ d = d' := by
      constructor
      · rintro ⟨rs', sn', hsome⟩
        simp only [Option.some.injEq, Prod.mk.injEq] at hsome
        exact hsome.1.symm
      · rintro rfl
        exact ⟨rs, sn, rfl⟩
    rw [hr]
    simp only [mergeLive]
    cases lookupD S d' with
    | none => exact hasKeyD_dictSet
    | some ex => exact hasKeyD_dictSet

-- ----------------------------
-- Helper lemmas: permutation invariance and sorting
-- ----------------------------

theorem keysNodup_of_perm {m₁ m₂ : FactMap} (hp : m₁.Perm m₂)
    (h : keysNodup m₁) : keysNodup m₂ :=
  ((hp.map Prod.fst).nodup_iff).mp h

theorem keysNodup_tail {p : Date × List Str} {m : FactMap}
    (h : keysNodup (p :: m)) : keysNodup m := by
  unfold keysNodup at h ⊢
  rw [List.map_cons, List.nodup_cons] at h
  exact h.2

theorem lookupD_perm {m₁ m₂ : FactMap} (hp : m₁.Perm m₂) (hnd : keysNodup m₁) :
    ∀ d, lookupD m₁ d = lookupD m₂ d := by
  induction hp with
  | nil => intro d; rfl
  | cons x p ih =>
    intro d
    obtain ⟨k, v⟩ := x
    have hnd' := keysNodup_tail hnd
    by_cases h : k = d
    · simp [lookupD, h]
    · simp [lookupD, h, ih hnd']
  | swap x y l =>
    intro d
    obtain ⟨kx, vx⟩ := x
    obtain ⟨ky, vy⟩ := y
    unfold keysNodup at hnd
    simp only [List.map_cons, List.nodup_cons, List.mem_cons] at hnd
    have hxy : ky ≠ kx := fun he => hnd.1 (Or.inl he)
    by_cases hx : kx = d <;> by_cases hy : ky = d
    · exact absurd (hy.trans hx.symm) hxy
    · simp [lookupD, hx, hy]
    · simp [lookupD, hx, hy]
    · simp [lookupD, hx, hy]
  | trans p₁ p₂ ih₁ ih₂ =>
    intro d
    rw [ih₁ hnd d, ih₂ (keysNodup_of_perm p₁ hnd) d]

theorem sortDates_sorted (ds : List Date) : List.Sorted dle (sortDates ds) :=
  List.sorted_insertionSort dle ds

theorem sortDates_perm (ds : List Date) : (sortDates ds).Perm ds :=
  List.perm_insertionSort dle ds

theorem sortDates_eq_of_perm {ds₁ ds₂ : List Date} (h : ds₁.Perm ds₂) :
    sortDates ds₁ = sortDates ds₂ :=
  List.eq_of_perm_of_sorted
    ((sortDates_perm ds₁).trans (h.trans (sortDates_perm ds₂).symm))
    (sortDates_sorted ds₁) (sortDates_sorted ds₂)

-- ----------------------------
-- Helper lemmas: ICS escaping
-- ----------------------------

theorem pyReplace1_append (p : Char) (rep : Str) (s t : Str) :
    pyReplace1 p rep (s ++ t) = pyReplace1 p rep s ++ pyReplace1 p rep t := by
  simp [pyReplace1]

theorem ics_escape_append (s t : Str) :
    ics_escape (s ++ t) = ics_escape s ++ ics_escape t := by
  simp [ics_escape, pyReplace1_append]

theorem ics_escape_singleton (c : Char) : ics_escape [c] = escChar c := by
  by_cases h1 : c = '\\'
  · subst h1; rfl
  · by_cases h2 : c = ';'
    · subst h2; rfl
    · by_cases h3 : c = ','
      · subst h3; rfl
      · by_cases h4 : c = '\n'
        · subst h4; rfl
        · simp [ics_escape, pyReplace1, escChar, h1, h2, h3, h4]

theorem ics_escape_eq_flatMap (s : Str) : ics_escape s = s.flatMap escChar := by
  induction s with
  | nil => rfl
  | cons c t ih =>
    rw [show (c :: t : Str) = [c] ++ t from rfl, ics_escape_append,
      List.flatMap_append, ics_escape_singleton, ih]
    simp

theorem escChar_ne_nil (c : Char) : escChar c ≠ [] := by
  unfold escChar
  split
  · simp
  · split
    · simp
    · split
      · simp
      · split <;> simp

theorem flatMap_escChar_nil {s : Str} (h : s.flatMap escChar = []) : s = [] := by
  cases s with
  | nil => rfl
  | cons c t =>
    rw [List.flatMap_cons, List.append_eq_nil] at h
    exact absurd h.1 (escChar_ne_nil c)

theorem unescape_two (c2 : Char) (x : Str) :
    ics_unescape ('\\' :: c2 :: x) =
      (if c2 = 'n' then '\n' else c2) :: ics_unescape x := by
  simp [ics_unescape]

theorem unescape_flatMap : ∀ (s t : Str),
    ics_unescape (s.flatMap escChar ++ t) = s ++ ics_unescape t := by
  intro s
  induction s with
  | nil => intro t; rfl
  | cons c s ih =>
    intro t
    rw [List.flatMap_cons, List.append_assoc]
    have key : ∀ e : Char, escChar c = ['\\', e] →
        (if e = 'n' then '\n' else e) = c →
        ics_unescape (escChar c ++ (s.flatMap escChar ++ t)) =
          (c :: s) ++ ics_unescape t := by
      intro e he hc
      rw [he]
      calc ics_unescape ('\\' :: e :: (s.flatMap escChar ++ t))
          = (if e = 'n' then '\n' else e) :: ics_unescape (s.flatMap escChar ++ t) :=
            unescape_two e _
        _ = c :: (s ++ ics_unescape t) := by rw [hc, ih]
        _ = (c :: s) ++ ics_unescape t := rfl
    by_cases h1 : c = '\\'
    · subst h1
      exact key '\\' rfl (by decide)
    · by_cases h2 : c = ';'
      · subst h2
        exact key ';' rfl (by decide)
      · by_cases h3 : c = ','
        · subst h3
          exact key ',' rfl (by decide)
        · by_cases h4 : c = '\n'
          · subst h4
            exact key 'n' rfl (by decide)
          · rw [show escChar c = [c] from by simp [escChar, h1, h2, h3, h4]]
            cases hrest : s.flatMap escChar ++ t with
            | nil =>
              obtain ⟨hs, ht⟩ := List.append_eq_nil.mp hrest
              rw [flatMap_escChar_nil hs, ht]
              rfl
            | cons x xs =>
              have hstep : ics_unescape (c :: x :: xs) = c :: ics_unescape (x :: xs) := by
                simp [ics_unescape, h1]
              calc ics_unescape ([c] ++ x :: xs)
                  = c :: ics_unescape (x :: xs) := hstep
                _ = c :: ics_unescape (s.flatMap escChar ++ t) := by rw [hrest]
                _ = c :: (s ++ ics_unescape t) := by rw [ih]
                _ = (c :: s) ++ ics_unescape t := rfl

-- ----------------------------
-- Helper lemmas: stripping and the emoji suffix
-- ----------------------------

theorem pyLstrip_cons_of_not_space {c : Char} (h : pyIsSpace c = false)
    (s : Str) : pyLstrip (c :: s) = c :: s := by
  simp [pyLstrip, List.dropWhile_cons, h]

theorem pyRstrip_self_of_last {b : Str} {c : Char} {cs : Str}
    (hb : b.reverse = c :: cs) (hc : pyIsSpace c = false) : pyRstrip b = b := by
  unfold pyRstrip
  rw [hb, List.dropWhile_cons, hc]
  simp only [Bool.false_eq_true, if_false]
  rw [← hb, List.reverse_reverse]

theorem pyRstrip_append_right {a b : Str} (hrb : pyRstrip b = b)
    (hne : b ≠ []) : pyRstrip (a ++ b) = a ++ b := by
  obtain ⟨c, cs, hb⟩ : ∃ c cs, b.reverse = c :: cs := by
    cases hrev : b.reverse with
    | nil => exact absurd (by simpa using congrArg List.reverse hrev) hne
    | cons c cs => exact ⟨c, cs, rfl⟩
  have hc : pyIsSpace c = false := by
    by_contra hcc
    rw [Bool.not_eq_false] at hcc
    have : pyRstrip b = (List.dropWhile pyIsSpace cs).reverse := by
      unfold pyRstrip
      rw [hb, List.dropWhile_cons, hcc]
      simp
    rw [hrb] at this
    have hlen := congrArg List.length this
    have hdw := (List.dropWhile_sublist (l := cs) pyIsSpace).length_le
    have hrevlen := congrArg List.length hb
    simp only [List.length_reverse, List.length_cons] at hlen hrevlen
    omega
  exact pyRstrip_self_of_last (by rw [List.reverse_append, hb]; rfl) hc

theorem flatten_good {L : List Str} (hall : ∀ v ∈ L, v ≠ [] ∧ pyRstrip v = v)
    (hne : L ≠ []) : L.flatten ≠ [] ∧ pyRstrip L.flatten = L.flatten := by
  induction L with
  | nil => exact absurd rfl hne
  | cons v L ih =>
    have hv := hall v (by simp)
    cases L with
    | nil =>
      simp only [List.flatten_cons, List.flatten_nil, List.append_nil]
      exact hv
    | cons w L' =>
      have ihh := ih (fun x hx => hall x (by simp [hx])) (by simp)
      rw [List.flatten_cons]
      constructor
      · simp only [ne_eq, List.append_eq_nil, not_and]
        intro hcv
        exact absurd hcv hv.1
      · exact pyRstrip_append_right ihh.2 ihh.1

theorem mem_collectEmojis_values {hs : List Str} {e : Str}
    (h : e ∈ collectEmojis hs) : e ∈ HOLIDAY_EMOJI.map Prod.snd := by
  unfold collectEmojis at h
  rw [List.mem_flatMap] at h
  obtain ⟨hh, _, hmem⟩ := h
  rw [List.mem_map] at hmem
  obtain ⟨ke, hke, rfl⟩ := hmem
  exact List.mem_map.mpr ⟨ke, (List.mem_filter.mp hke).1, rfl⟩

theorem emoji_values_good :
    ∀ v ∈ HOLIDAY_EMOJI.map Prod.snd, v ≠ [] ∧ pyRstrip v = v := by
  decide

theorem dedupKeepOrder_eq (l : List Str) : dedupKeepOrder l = mergeReasons [] l :=
  rfl

theorem emojis_for_holidays_good (hs : List Str)
    (hne : emojis_for_holidays hs ≠ []) :
    pyRstrip (emojis_for_holidays hs) = emojis_for_holidays hs := by
  unfold emojis_for_holidays at hne ⊢
  have hLne : dedupKeepOrder (collectEmojis hs) ≠ [] := by
    intro hc
    rw [hc] at hne
    exact hne rfl
  refine (flatten_good ?_ hLne).2
  intro v hv
  rw [dedupKeepOrder_eq] at hv
  have := mem_mergeReasons.mp hv
  rcases this with hfalse | hcol
  · simp at hfalse
  · exact emoji_values_good v (mem_collectEmojis_values hcol)

-- ----------------------------
-- Helper lemmas: calendar arithmetic
-- ----------------------------

theorem one_le_daysInMonth (y m : Nat) : 1 ≤ daysInMonth y m := by
  unfold daysInMonth
  split
  · split <;> omega
  · split <;> omega

theorem leapsBefore_succ (k : Nat) :
    leapsBefore (k + 1) = leapsBefore k + (if isLeap (k + 1) then 1 else 0) := by
  unfold leapsBefore
  rw [Nat.succ_div k 4, Nat.succ_div k 100, Nat.succ_div k 400]
  have h41 : k / 100 ≤ k / 4 := Nat.div_le_div_left (by norm_num) (by norm_num)
  have h42 : k / 400 ≤ k / 100 := Nat.div_le_div_left (by norm_num) (by norm_num)
  have hd1 : (100 : Nat) ∣ k + 1 → (4 : Nat) ∣ k + 1 := fun h =>
    dvd_trans (by norm_num) h
  have hd2 : (400 : Nat) ∣ k + 1 → (100 : Nat) ∣ k + 1 := fun h =>
    dvd_trans (by norm_num) h
  have hleap : isLeap (k + 1) ↔
      ((4 : Nat) ∣ k + 1 ∧ ¬(100 : Nat) ∣ k + 1) ∨ (400 : Nat) ∣ k + 1 := by
    unfold isLeap
    rw [Nat.dvd_iff_mod_eq_zero, Nat.dvd_iff_mod_eq_zero, Nat.dvd_iff_mod_eq_zero]
    constructor
    · rintro ⟨h4, h100 | h400⟩
      · exact Or.inl ⟨h4, h100⟩
      · exact Or.inr h400
    · rintro (⟨h4, h100⟩ | h400)
      · exact ⟨h4, Or.inl h100⟩
      · have h4 : (k + 1) % 4 = 0 := by
          rw [← Nat.dvd_iff_mod_eq_zero] at h400 ⊢
          exact dvd_trans (by norm_num) h400
        exact ⟨h4, Or.inr h400⟩
  by_cases h4 : (4 : Nat) ∣ k + 1
  · by_cases h100 : (100 : Nat) ∣ k + 1
    · by_cases h400 : (400 : Nat) ∣ k + 1
      · rw [if_pos h4, if_pos h100, if_pos h400,
          if_pos (hleap.mpr (Or.inr h400))]
        omega
      · rw [if_pos h4, if_pos h100, if_neg h400,
          if_neg (fun hc => by
            rcases hleap.mp hc with ⟨_, hn⟩ | hy
            · exact hn h100
            · exact h400 hy)]
        omega
    · have h400 : ¬(400 : Nat) ∣ k + 1 := fun hc => h100 (hd2 hc)
      rw [if_pos h4, if_neg h100, if_neg h400,
        if_pos (hleap.mpr (Or.inl ⟨h4, h100⟩))]
      omega
  · have h100 : ¬(100 : Nat) ∣ k + 1 := fun hc => h4 (hd1 hc)
    have h400 : ¬(400 : Nat) ∣ k + 1 := fun hc => h100 (hd2 hc)
    rw [if_neg h4, if_neg h100, if_neg h400,
      if_neg (fun hc => by
        rcases hleap.mp hc with ⟨hy, _⟩ | hy
        · exact h4 hy
        · exact h400 (hy))]
    omega

theorem daysBeforeMonth_succ (y m : Nat) (hm : 1 ≤ m) :
    daysBeforeMonth y (m + 1) = daysBeforeMonth y m + daysInMonth y m := by
  obtain ⟨k, rfl⟩ : ∃ k, m = k + 1 := ⟨m - 1, by omega⟩
  rfl

theorem daysBeforeMonth_12 (y : Nat) :
    daysBeforeMonth y 12 = 334 + (if isLeap y then 1 else 0) := by
  by_cases h : isLeap y <;>
    simp [daysBeforeMonth, daysInMonth, h]

theorem isValidDate_mk {y m dy : Nat} (h1 : 1 ≤ y) (h2 : 1 ≤ m) (h3 : m ≤ 12)
    (h4 : 1 ≤ dy) (h5 : dy ≤ daysInMonth y m) : isValidDate ⟨y, m, dy⟩ :=
  ⟨h1, h2, h3, h4, h5⟩

theorem toOrdinal_mk (y m k : Nat) :
    toOrdinal ⟨y, m, k⟩ = daysBeforeYear y + daysBeforeMonth y m + k := rfl

theorem toOrdinal_nextDay {d : Date} (hv : isValidDate d) :
    toOrdinal (nextDay d) = toOrdinal d + 1 ∧ isValidDate (nextDay d) := by
  obtain ⟨y, m, dy⟩ := d
  obtain ⟨hy, hm1, hm2, hd1, hd2⟩ := hv
  replace hy : 1 ≤ y := hy
  replace hm1 : 1 ≤ m := hm1
  replace hm2 : m ≤ 12 := hm2
  replace hd1 : 1 ≤ dy := hd1
  replace hd2 : dy ≤ daysInMonth y m := hd2
  have hnd : nextDay ⟨y, m, dy⟩ =
      if dy < daysInMonth y m then (⟨y, m, dy + 1⟩ : Date)
      else if m < 12 then (⟨y, m + 1, 1⟩ : Date) else (⟨y + 1, 1, 1⟩ : Date) :=
    rfl
  by_cases hlt : dy < daysInMonth y m
  · rw [hnd, if_pos hlt]
    refine ⟨?_, ?_⟩
    · rw [toOrdinal_mk, toOrdinal_mk]
      omega
    · exact isValidDate_mk hy hm1 hm2 (by omega) (by omega)
  · have hdy : dy = daysInMonth y m := by omega
    by_cases hm12 : m < 12
    · rw [hnd, if_neg hlt, if_pos hm12]
      refine ⟨?_, ?_⟩
      · rw [toOrdinal_mk, toOrdinal_mk, daysBeforeMonth_succ y m hm1]
        omega
      · exact isValidDate_mk hy (by omega) (by omega) (by omega)
          (one_le_daysInMonth y (m + 1))
    · have hm : m = 12 := by omega
      subst hm
      have hdim : daysInMonth y 12 = 31 := rfl
      rw [hnd, if_neg hlt, if_neg hm12]
      refine ⟨?_, ?_⟩
      · rw [toOrdinal_mk, toOrdinal_mk, daysBeforeMonth_12 y,
          show daysBeforeMonth (y + 1) 1 = 0 from rfl]
        unfold daysBeforeYear
        obtain ⟨z, rfl⟩ : ∃ z, y = z + 1 := ⟨y - 1, by omega⟩
        rw [show z + 1 + 1 - 1 = z + 1 from rfl, show z + 1 - 1 = z from rfl,
          leapsBefore_succ z]
        rw [hdim] at hdy
        by_cases hL : isLeap (z + 1)
        · rw [if_pos hL]
          omega
        · rw [if_neg hL]
          omega
      · exact isValidDate_mk (by omega) (by omega) (by omega) (by omega)
          (one_le_daysInMonth (y + 1) 1)

-- ----------------------------
-- Helper lemmas: digest shape
-- ----------------------------

theorem toHex8_length (w : Nat) : (toHex8 w).length = 8 := by
  simp [toHex8]

theorem sha1Hex_length (msg : List Nat) : (sha1Hex msg).length = 40 := by
  unfold sha1Hex
  simp [toHex8_length]

instance (m : FactMap) : Decidable (keysNodup m) := by
  unfold keysNodup
  infer_instance

theorem pyLstrip_prefix_append (x : Str) :
    pyLstrip (SUSPENDED_PREFIX_STR ++ x) = SUSPENDED_PREFIX_STR ++ x := by
  show pyLstrip (mc 0xf8ff :: _) = _
  rw [pyLstrip_cons_of_not_space (by decide) _]
  rfl

theorem fetch_live_core_eq (today : Date) (snippet : Str)
    (matched : Option Str) :
    ∃ rs : List Str, rs ≠ [] ∧
      fetch_live_core true today snippet matched = some (today, rs, snippet) := by
  unfold fetch_live_core
  simp only [Bool.not_true, Bool.false_eq_true, if_false]
  by_cases hr : (match matched with
    | some g =>
      if 3 ≤ (pyStrip (splitFirstPart (pyStrip g))).length ∧
          (pyStrip (splitFirstPart (pyStrip g))).length ≤ 80 then
        [pyStrip (splitFirstPart (pyStrip g))]
      else []
    | none => ([] : List Str)) = []
  · exact ⟨["NYC 311 update".toList], by simp, by rw [if_pos hr]⟩
  · refine ⟨_, hr, by rw [if_neg hr]⟩

-- ----------------------------
-- Claims
-- ----------------------------

/-- C1 (counterexample): a date whose scheduled reason list is empty (as
produced by `load_scheduled_suspensions` from a record with an empty list)
does appear in the merged output, with zero reasons, and an event is built
for it — refuting "a date appears iff it has at least one non-blank reason"
and "no merged entry with zero reasons is emitted". -/
theorem C1_empty_entry_cex :
    loadRecords [] [(⟨2026, 1, 1⟩, [])] = [(⟨2026, 1, 1⟩, [])] ∧
    mergeLive [(⟨2026, 1, 1⟩, [])] none = [(⟨2026, 1, 1⟩, [])] ∧
    hasKeyD (mergeLive [(⟨2026, 1, 1⟩, [])] none) ⟨2026, 1, 1⟩ = true ∧
    lookupD (mergeLive [(⟨2026, 1, 1⟩, [])] none) ⟨2026, 1, 1⟩ = some [] ∧
    buildEvents (mergeLive [(⟨2026, 1, 1⟩, [])] none) [] [] =
      [build_all_day_event ⟨2026, 1, 1⟩ SUSPENDED_PREFIX_STR [] []] := by
  refine ⟨rfl, rfl, by decide, by decide, rfl⟩

/-- C1 (amended): a date appears in the merged output iff it is a key of the
scheduled map or the live observation (if any) is for that date; reason
lists are not inspected, so entries with empty reason lists survive the
merge and are emitted with the generic fallback title. -/
theorem C1_merged_keys (S : FactMap) (L : Option (Date × List Str × Str))
    (d : Date) :
    hasKeyD (mergeLive S L) d = true ↔
      hasKeyD S d = true ∨ ∃ rs sn, L = some (d, rs, sn) :=
  hasKeyD_mergeLive S L d

/-- C2 (counterexample): the merge deduplicates by exact string equality
with no whitespace trimming and no blank filtering: a scheduled reason
"Christmas" and a live reason " Christmas " (equal after trimming) both
appear in the merged list. -/
theorem C2_whitespace_cex :
    mergeReasons ["Christmas".toList] [" Christmas ".toList] =
      ["Christmas".toList, " Christmas ".toList] ∧
    pyStrip " Christmas ".toList = "Christmas".toList ∧
    "Christmas".toList ≠ " Christmas ".toList := by
  decide

/-- C2 (amended): the merge deduplicates live reasons against the scheduled
and previously-appended reasons by exact (untrimmed, case-sensitive) string
equality; membership in the merged list is exactly membership in either
input, and the merged list is duplicate-free whenever the scheduled list
is. -/
theorem C2_merge_dedup_exact (E rs : List Str) :
    (∀ r, r ∈ mergeReasons E rs ↔ r ∈ E ∨ r ∈ rs) ∧
    (E.Nodup → (mergeReasons E rs).Nodup) :=
  ⟨fun _ => mem_mergeReasons, fun h => nodup_mergeReasons h⟩

theorem C2_merge_dedup_exact_witness :
    (["Christmas".toList] : List Str).Nodup ∧
    (mergeReasons ["Christmas".toList]
      ["Storm".toList, "Storm".toList]).Nodup :=
  ⟨by decide, (C2_merge_dedup_exact ["Christmas".toList]
    ["Storm".toList, "Storm".toList]).2 (by decide)⟩

/-- C3: `ics_escape` performs the four reserved-character substitutions in
source order (backslash first), acts as an independent per-character escape
map (so later substitutions never double-escape earlier output), and is
reversible: standard ICS unescaping recovers every input exactly, hence the
escape is injective. -/
theorem C3_escape_roundtrip (s t : Str) :
    ics_unescape (ics_escape s) = s ∧
    ics_escape s = s.flatMap escChar ∧
    (ics_escape s = ics_escape t → s = t) := by
  have hround : ∀ u : Str, ics_unescape (ics_escape u) = u := fun u => by
    rw [ics_escape_eq_flatMap]
    have h0 : ics_unescape [] = [] := rfl
    simpa [h0] using unescape_flatMap u []
  refine ⟨hround s, ics_escape_eq_flatMap s, fun h => ?_⟩
  rw [← hround s, h, hround t]

theorem C3_escape_roundtrip_witness :
    ics_unescape (ics_escape "a,b;c\\d\ne".toList) = "a,b;c\\d\ne".toList :=
  (C3_escape_roundtrip "a,b;c\\d\ne".toList []).1

/-- C4: the uid is a pure function of (date, summary) of the fixed shape
`asp-<ISO date>-<digest prefix>@aspcalendar`, where the digest prefix is the
first 16 hex characters (a fixed length) of the SHA-1 digest of
`<ISO date>|<summary>` encoded as UTF-8. -/
theorem C4_uid_deterministic (d : Date) (summary : Str) :
    uid_for d summary = uid_for d summary ∧
    ∃ h : Str, uid_for d summary =
        "asp-".toList ++ isoformat d ++ ['-'] ++ h ++ "@aspcalendar".toList ∧
      h = (sha1Hex (strUtf8 (isoformat d ++ ['|'] ++ summary))).take 16 ∧
      h.length = 16 := by
  refine ⟨rfl, (sha1Hex (strUtf8 (isoformat d ++ ['|'] ++ summary))).take 16,
    rfl, rfl, ?_⟩
  rw [List.length_take, sha1Hex_length]
  decide

/-- C5: merging reason lists keeps the scheduled reasons as an unchanged
order-preserving front segment and appends exactly the novel live reasons
(none already scheduled, no duplicates among them, none lost); on the
spec's concrete example the result is ["Christmas", "Storm"]. -/
theorem C5_merge_order (S L : List Str) :
    (∃ t : List Str, mergeReasons S L = S ++ t ∧ t.Nodup ∧
      (∀ r ∈ t, r ∈ L ∧ r ∉ S) ∧ (∀ r ∈ L, r ∈ S ++ t)) ∧
    mergeReasons ["Christmas".toList] ["Christmas".toList, "Storm".toList] =
      ["Christmas".toList, "Storm".toList] :=
  ⟨mergeReasons_decomp L S, by decide⟩

theorem C5_merge_order_witness :
    ∃ t : List Str,
      mergeReasons ["Christmas".toList] ["Christmas".toList, "Storm".toList] =
        ["Christmas".toList] ++ t ∧ t.Nodup ∧
      (∀ r ∈ t, r ∈ ["Christmas".toList, "Storm".toList] ∧
        r ∉ ["Christmas".toList]) ∧
      (∀ r ∈ ["Christmas".toList, "Storm".toList],
        r ∈ ["Christmas".toList] ++ t) :=
  (C5_merge_order ["Christmas".toList]
    ["Christmas".toList, "Storm".toList]).1

/-- C6 (counterexample): the built title is not always literally
"prefix + separator + joined reasons + symbol suffix": the final
`.strip()` removes trailing whitespace, so for the reason "Storm " (with a
trailing blank and no keyword match) the title drops that blank. -/
theorem C6_strip_cex :
    build_summary ["Storm ".toList] =
      SUSPENDED_PREFIX_STR ++ SEP_DASH ++ "Storm".toList ∧
    emojis_for_holidays ["Storm ".toList] = [] ∧
    SUSPENDED_PREFIX_STR ++ SEP_DASH ++ "Storm".toList ≠
      SUSPENDED_PREFIX_STR ++ SEP_DASH ++ "Storm ".toList ++
        emojis_for_holidays ["Storm ".toList] := by
  decide

/-- C6 (amended): for a non-empty reason list the title is the suspended
prefix, the separator, the reasons joined by " / ", and — when any keyword
matches — a space plus the matched symbols (collected per reason in mapping
order, de-duplicated preserving first occurrence, each drawn from the
table); when no symbol matches, the same without a suffix provided the
joined reasons do not end in whitespace (otherwise trailing whitespace is
stripped); an empty reason list yields the bare prefix, never a failure. -/
theorem C6_title_structure (hs : List Str) :
    build_summary [] = SUSPENDED_PREFIX_STR ∧
    (hs ≠ [] → emojis_for_holidays hs ≠ [] →
      build_summary hs = SUSPENDED_PREFIX_STR ++ SEP_DASH ++
        List.intercalate sepSlash hs ++ (' ' :: emojis_for_holidays hs)) ∧
    (hs ≠ [] → emojis_for_holidays hs = [] →
      pyRstrip (List.intercalate sepSlash hs) = List.intercalate sepSlash hs →
      List.intercalate sepSlash hs ≠ [] →
      build_summary hs = SUSPENDED_PREFIX_STR ++ SEP_DASH ++
        List.intercalate sepSlash hs) ∧
    (∀ e ∈ dedupKeepOrder (collectEmojis hs), e ∈ HOLIDAY_EMOJI.map Prod.snd) ∧
    (dedupKeepOrder (collectEmojis hs)).Nodup := by
  refine ⟨rfl, ?_, ?_, ?_, ?_⟩
  · intro hne hE
    unfold build_summary
    rw [if_neg hne]
    have hr1 : pyRstrip (' ' :: emojis_for_holidays hs) =
        ' ' :: emojis_for_holidays hs := by
      have := pyRstrip_append_right (a := [' '])
        (emojis_for_holidays_good hs hE) hE
      simpa using this
    rw [hr1]
    unfold pyStrip
    have hr2 := pyRstrip_append_right
      (a := SUSPENDED_PREFIX_STR ++ SEP_DASH ++ List.intercalate sepSlash hs)
      hr1 (by simp)
    rw [hr2, List.append_assoc, List.append_assoc, pyLstrip_prefix_append]
  · intro hne hE hJ hJne
    unfold build_summary
    rw [if_neg hne, hE]
    rw [show pyRstrip (' ' :: ([] : Str)) = [] from by decide, List.append_nil]
    unfold pyStrip
    have hr1 := pyRstrip_append_right (a := SEP_DASH) hJ hJne
    have hr2 := pyRstrip_append_right (a := SUSPENDED_PREFIX_STR) hr1
      (by simp [SEP_DASH])
    rw [List.append_assoc, hr2, pyLstrip_prefix_append]
  · intro e he
    rw [dedupKeepOrder_eq] at he
    rcases mem_mergeReasons.mp he with hfalse | hcol
    · simp at hfalse
    · exact mem_collectEmojis_values hcol
  · rw [dedupKeepOrder_eq]
    exact nodup_mergeReasons List.nodup_nil

theorem C6_title_structure_witness :
    (["Christmas Day".toList] : List Str) ≠ [] ∧
    emojis_for_holidays ["Christmas Day".toList] ≠ [] ∧
    build_summary ["Christmas Day".toList] =
      SUSPENDED_PREFIX_STR ++ SEP_DASH ++
        List.intercalate sepSlash ["Christmas Day".toList] ++
        (' ' :: emojis_for_holidays ["Christmas Day".toList]) :=
  ⟨by decide, by decide,
    (C6_title_structure ["Christmas Day".toList]).2.1 (by decide) (by decide)⟩

/-- C7: the merge is deterministic, and feeding the reasons of any entry of
an already-merged map back in as a live observation for that date changes
nothing (in particular it introduces no duplicate reasons). -/
theorem C7_merge_idempotent (S : FactMap)
    (L : Option (Date × List Str × Str)) :
    mergeLive S L = mergeLive S L ∧
    (keysNodup S → ∀ (d : Date) (rs : List Str) (sn : Str),
      lookupD (mergeLive S L) d = some rs →
      mergeLive (mergeLive S L) (some (d, rs, sn)) = mergeLive S L) := by
  refine ⟨rfl, fun hnd d rs sn hlk => ?_⟩
  have hndM := keysNodup_mergeLive (L := L) hnd
  generalize hM : mergeLive S L = M at hlk hndM ⊢
  have hstep : mergeLive M (some (d, rs, sn)) =
      dictSet M d (mergeReasons rs rs) := by
    simp only [mergeLive, hlk]
  rw [hstep, mergeReasons_of_subset fun r hr => hr]
  exact dictSet_lookup_self hndM hlk

theorem C7_merge_idempotent_witness :
    keysNodup [(⟨2026, 1, 1⟩, ["A".toList])] ∧
    mergeLive
      (mergeLive [(⟨2026, 1, 1⟩, ["A".toList])]
        (some (⟨2026, 1, 1⟩, ["B".toList], [])))
      (some (⟨2026, 1, 1⟩, ["A".toList, "B".toList], [])) =
      mergeLive [(⟨2026, 1, 1⟩, ["A".toList])]
        (some (⟨2026, 1, 1⟩, ["B".toList], [])) :=
  ⟨by decide,
    (C7_merge_idempotent [(⟨2026, 1, 1⟩, ["A".toList])]
      (some (⟨2026, 1, 1⟩, ["B".toList], []))).2 (by decide)
      ⟨2026, 1, 1⟩ ["A".toList, "B".toList] [] (by decide)⟩

/-- C8: the emitted event blocks are the per-date events taken in
ascending date order (a sorted permutation of the merged map's keys), and
the output is independent of the insertion order of the map. -/
theorem C8_events_sorted (m₁ m₂ : FactMap) (description nowUtc : Str)
    (hnd : keysNodup m₁) (hp : m₁.Perm m₂) :
    buildEvents m₁ description nowUtc = buildEvents m₂ description nowUtc ∧
    ∃ ds : List Date, ds.Perm (m₁.map Prod.fst) ∧ List.Sorted dle ds ∧
      buildEvents m₁ description nowUtc = ds.map (fun d =>
        build_all_day_event d (build_summary ((lookupD m₁ d).getD []))
          description nowUtc) := by
  constructor
  · unfold buildEvents sortDates
    rw [List.eq_of_perm_of_sorted
      ((List.perm_insertionSort dle (m₁.map Prod.fst)).trans
        ((hp.map Prod.fst).trans
          (List.perm_insertionSort dle (m₂.map Prod.fst)).symm))
      (List.sorted_insertionSort dle (m₁.map Prod.fst))
      (List.sorted_insertionSort dle (m₂.map Prod.fst))]
    apply List.map_congr_left
    intro a _
    rw [lookupD_perm hp hnd a]
  · exact ⟨sortDates (m₁.map Prod.fst), sortDates_perm _, sortDates_sorted _,
      rfl⟩

theorem C8_events_sorted_witness :
    buildEvents [(⟨2026, 12, 25⟩, ["Christmas Day".toList]),
        (⟨2026, 1, 1⟩, ["New Year".toList])] [] [] =
      buildEvents [(⟨2026, 1, 1⟩, ["New Year".toList]),
        (⟨2026, 12, 25⟩, ["Christmas Day".toList])] [] [] :=
  by
  have h := C8_events_sorted
    [(⟨2026, 12, 25⟩, ["Christmas Day".toList]),
      (⟨2026, 1, 1⟩, ["New Year".toList])]
    [(⟨2026, 1, 1⟩, ["New Year".toList]),
      (⟨2026, 12, 25⟩, ["Christmas Day".toList])]
    [] [] (by decide)
    (List.Perm.swap ((⟨2026, 1, 1⟩, ["New Year".toList]) : Date × List Str)
      ((⟨2026, 12, 25⟩, ["Christmas Day".toList]) : Date × List Str) [])
  exact h.1

/-- C9: every built event is date-only: its DTSTART field carries the
eight-digit start date and its DTEND field carries the eight-digit date of
the next calendar day (exclusive end), "next" in the exact sense that its
ordinal day number is the start's plus one. -/
theorem C9_all_day_event (date_ : Date) (summary description nowUtc : Str)
    (hv : isValidDate date_) :
    (build_all_day_event date_ summary description nowUtc)[3]? =
      some ("DTSTART;VALUE=DATE:".toList ++ ymd8 date_) ∧
    (build_all_day_event date_ summary description nowUtc)[4]? =
      some ("DTEND;VALUE=DATE:".toList ++ ymd8 (nextDay date_)) ∧
    toOrdinal (nextDay date_) = toOrdinal date_ + 1 ∧
    isValidDate (nextDay date_) ∧
    (ymd8 date_).length = 8 ∧ (ymd8 (nextDay date_)).length = 8 := by
  obtain ⟨h1, h2⟩ := toOrdinal_nextDay hv
  exact ⟨rfl, rfl, h1, h2, rfl, rfl⟩

theorem C9_all_day_event_witness :
    (build_all_day_event ⟨2026, 12, 25⟩ [] [] [])[3]? =
      some "DTSTART;VALUE=DATE:20261225".toList ∧
    (build_all_day_event ⟨2026, 12, 25⟩ [] [] [])[4]? =
      some "DTEND;VALUE=DATE:20261226".toList := by
  have h := C9_all_day_event ⟨2026, 12, 25⟩ [] [] [] (by decide)
  exact ⟨h.1.trans (by decide), h.2.1.trans (by decide)⟩

/-- C10: whenever the live extractor's decision logic returns an
observation at all, that observation is for the scraped date and snippet
and its reason list is non-empty — the fixed fallback reason
"NYC 311 update" is substituted when no usable reason was extracted. -/
theorem C10_live_reasons_nonempty (suspFound : Bool) (today : Date)
    (snippet : Str) (matched : Option Str) (d : Date) (rs : List Str)
    (sn : Str)
    (h : fetch_live_core suspFound today snippet matched = some (d, rs, sn)) :
    rs ≠ [] ∧ d = today ∧ sn = snippet := by
  cases suspFound with
  | false => exact Option.noConfusion h
  | true =>
    obtain ⟨rs', hne, heq⟩ := fetch_live_core_eq today snippet matched
    rw [heq, Option.some_inj] at h
    have hd : today = d := congrArg Prod.fst h
    have hrs : rs' = rs := congrArg (fun p => p.2.1) h
    have hsn : snippet = sn := congrArg (fun p => p.2.2) h
    exact ⟨hrs ▸ hne, hd.symm, hsn.symm⟩

theorem C10_live_reasons_nonempty_witness :
    fetch_live_core true ⟨2026, 2, 3⟩ [] none =
      some (⟨2026, 2, 3⟩, ["NYC 311 update".toList], []) ∧
    (["NYC 311 update".toList] : List Str) ≠ [] := by
  refine ⟨by decide, ?_⟩
  exact (C10_live_reasons_nonempty true ⟨2026, 2, 3⟩ [] none ⟨2026, 2, 3⟩
    ["NYC 311 update".toList] [] (by decide)).1

end ASP
